import Mathlib

/-!
A shallow embedding of the projected Gauss-Seidel impulse solver
(`PGSImpulseSolver::solve` and its local helpers in
`src/Simbody/src/PGSImpulseSolver.cpp`).  C++ `Real` (double) is modelled
as `ℝ`; the `Vector`/`Matrix` arguments are modelled as total functions
from (pairs of) natural-number multiplier indices; `Array_<MultiplierIndex>`
becomes `List ℕ`.  Mutation of `pi` and of the per-constraint status
fields is modelled by explicit state passing.
-/

namespace PGS

/-- Modelled from the spec: the normal-force mode of a unilateral contact —
externally supplied fixed value (`Known`), participating (solved here,
`Participate`), or excluded from this solve (`Observe`).  The enum lives in
`ImpulseSolver.h`, which is not part of the sources. -/
inductive ContactType where
  | Observe
  | Participate
  | Known
  deriving DecidableEq, Repr

/-- Modelled from the spec: normal-contact status, active vs. released/off
(`ImpulseSolver::UniCond` from `ImpulseSolver.h`, not in the sources). -/
inductive UniCond where
  | UniOff
  | UniActive
  deriving DecidableEq, Repr

/-- Modelled from the spec: friction status, rolling vs. sliding
(`ImpulseSolver::FricCond` from `ImpulseSolver.h`, not in the sources). -/
inductive FricCond where
  | Rolling
  | Sliding
  deriving DecidableEq, Repr

/-- Modelled from the spec: bounded-scalar status, engaged (inside bounds)
or clamped low/high (`ImpulseSolver::BndCond` from `ImpulseSolver.h`,
not in the sources). -/
inductive BndCond where
  | SlipLow
  | Engaged
  | SlipHigh
  deriving DecidableEq, Repr

/-- `SimTK::square` from the support library (not in the sources, but its
meaning `x*x` is forced by usage in the solver). -/
noncomputable def square (x : ℝ) : ℝ := x * x

/-- Unconditional-constraint runtime record: 1-6 multiplier indices,
always enforced, no status field is written by this solver. -/
structure UncondRT where
  m_mults : List ℕ
  deriving Repr

/-- Unilateral-contact runtime record: a normal multiplier index `m_Nk`,
its mode, an optional list of friction multiplier indices `m_Fk`, the sign
convention, the effective friction coefficient, the known normal impulse
(used in `Known` mode), and the two status outputs written by the solver. -/
structure UniContactRT where
  m_type : ContactType
  m_Nk : ℕ
  m_Fk : List ℕ
  m_sign : ℝ
  m_effMu : ℝ
  m_knownPi : ℝ
  m_contactCond : UniCond
  m_frictionCond : FricCond

/-- Modelled from the spec: a unilateral speed constraint provides a single
multiplier index with its own one-sided condition; its runtime record
(`UniSpeedRT` in `ImpulseSolver.h`, not in the sources) carries the index,
a sign convention and a status output. -/
structure UniSpeedRT where
  m_ix : ℕ
  m_sign : ℝ
  m_speedCond : UniCond

/-- Bounded-scalar runtime record: one index, constant bounds, status. -/
structure BoundedRT where
  m_ix : ℕ
  m_lb : ℝ
  m_ub : ℝ
  m_boundedCond : BndCond

/-- State-limited friction runtime record: friction indices, effective
friction coefficient, known normal-force magnitude, status. -/
structure StateLtdFrictionRT where
  m_Fk : List ℕ
  m_effMu : ℝ
  m_knownN : ℝ
  m_frictionCond : FricCond

/-- Constraint-limited friction runtime record: friction indices, normal
multiplier indices, effective friction coefficient, status. -/
structure ConstraintLtdFrictionRT where
  m_Fk : List ℕ
  m_Nk : List ℕ
  m_effMu : ℝ
  m_frictionCond : FricCond

/-- Modelled from the spec: a unilateral contact optionally carries
friction multiplier indices; `hasFriction` tests their presence
(declared in `ImpulseSolver.h`, which is not in the sources). -/
def UniContactRT.hasFriction (rt : UniContactRT) : Bool := !rt.m_Fk.isEmpty

/-- `doRowSum`: A[row]·pi, looking only at the given columns. -/
noncomputable def doRowSum (columns : List ℕ) (row : ℕ)
    (A : ℕ → ℕ → ℝ) (pi : ℕ → ℝ) : ℝ :=
  (columns.map fun cx => A row cx * pi cx).sum

/-- `doRowSums`: sums = A[rows]·pi over the given columns.  The C++ code
accumulates column-major (outer loop over columns); since real addition is
commutative and associative this equals the per-row sum. -/
noncomputable def doRowSums (columns : List ℕ) (rows : List ℕ)
    (A : ℕ → ℕ → ℝ) (pi : ℕ → ℝ) : List ℝ :=
  rows.map fun r => doRowSum columns r A pi

/-- `doUpdate`: given a rowSum, update one element of pi and return the
squared error; if the corresponding diagonal of A is nonpositive, quietly
skip the update.  Returns (squared error, updated pi). -/
noncomputable def doUpdate (row : ℕ) (A : ℕ → ℕ → ℝ) (rhs : ℕ → ℝ)
    (SOR : ℝ) (rowSum : ℝ) (pi : ℕ → ℝ) : ℝ × (ℕ → ℝ) :=
  let Arr := A row row
  let er := rhs row - rowSum
  (square er,
   if 0 < Arr then Function.update pi row (pi row + SOR * er / Arr) else pi)

/-- `doUpdates`: multiple row updates, one per entry of `rows` paired with
the precomputed `rowSums`; returns the total squared error and updated pi.
The rows are processed in order, each seeing earlier updates of pi (but
the residuals were all precomputed before the batch). -/
noncomputable def doUpdates (A : ℕ → ℕ → ℝ) (rhs : ℕ → ℝ)
    (SOR : ℝ) : List ℕ → List ℝ → (ℕ → ℝ) → ℝ × (ℕ → ℝ)
  | [], _, pi => (0, pi)
  | _ :: _, [], pi => (0, pi)
  | row :: rows, s :: sums, pi =>
      let Arr := A row row
      let er := rhs row - s
      let pi1 := if 0 < Arr then
                   Function.update pi row (pi row + SOR * er / Arr)
                 else pi
      let rest := doUpdates A rhs SOR rows sums pi1
      (square er + rest.1, rest.2)

/-- `boundUnilateral`: given a unilateral multiplier pi and its sign
convention, ensure that sign*pi <= 0.  Returns the status and the possibly
clamped value. -/
noncomputable def boundUnilateral (sign : ℝ) (piR : ℝ) : UniCond × ℝ :=
  if 0 < sign * piR then (UniCond.UniOff, 0) else (UniCond.UniActive, piR)

/-- `boundScalar`: ensure lb <= pi <= ub by moving pi to the nearest bound
if necessary.  Returns the status and the possibly clamped value. -/
noncomputable def boundScalar (lb : ℝ) (piR : ℝ) (ub : ℝ) : BndCond × ℝ :=
  if ub < piR then (BndCond.SlipHigh, ub)
  else if piR < lb then (BndCond.SlipLow, lb)
  else (BndCond.Engaged, piR)

/-- Sum of squares of the entries of `pi` selected by the index list. -/
noncomputable def normSq (IV : List ℕ) (pi : ℕ → ℝ) : ℝ :=
  (IV.map fun i => square (pi i)).sum

/-- The in-place loop `for i in IV: pi[IV[i]] *= scale`. -/
noncomputable def scaleEntries (IV : List ℕ) (scale : ℝ) (pi : ℕ → ℝ) :
    ℕ → ℝ :=
  IV.foldl (fun p i => Function.update p i (p i * scale)) pi

/-- `boundVector`: given an index set IV, ensure that ||pi[IV]|| <= maxLen
by scaling the vector to that length if necessary. -/
noncomputable def boundVector (maxLen : ℝ) (IV : List ℕ) (pi : ℕ → ℝ) :
    FricCond × (ℕ → ℝ) :=
  let maxLen2 := square maxLen
  let piNorm2 := normSq IV pi
  if piNorm2 ≤ maxLen2 then (FricCond.Rolling, pi)
  else (FricCond.Sliding,
        scaleEntries IV (Real.sqrt (maxLen2 / piNorm2)) pi)

/-- `boundFriction`: given normal index set IN and friction index set IFk,
ensure that ||pi[IFk]|| <= mu*||pi[IN]|| by scaling the friction vector if
necessary. -/
noncomputable def boundFriction (mu : ℝ) (IN : List ℕ) (IFk : List ℕ)
    (pi : ℕ → ℝ) : FricCond × (ℕ → ℝ) :=
  let N2 := normSq IN pi
  let F2 := normSq IFk pi
  let mu2N2 := mu * mu * N2
  if F2 ≤ mu2N2 then (FricCond.Rolling, pi)
  else (FricCond.Sliding, scaleEntries IFk (Real.sqrt (mu2N2 / F2)) pi)

/-- Configuration consumed by the driver: initial relaxation factor
`m_SOR`, convergence tolerance `m_convergenceTol`, iteration cap
`m_maxIters` (members of the solver object, set by the caller). -/
structure SolverConfig where
  m_SOR : ℝ
  m_convergenceTol : ℝ
  m_maxIters : ℕ

/-- The caller-owned state mutated by one sweep: the multiplier vector and
the runtime records whose status fields are written. -/
structure SweepState where
  pi : ℕ → ℝ
  uniContact : List UniContactRT
  bounded : List BoundedRT
  stateLtdFriction : List StateLtdFrictionRT
  consLtdFriction : List ConstraintLtdFrictionRT

/-- One record's step in a sweep pass: from the current pi and the record,
produce the updated record, the updated pi, the contribution to `sum2all`
and the contribution to `sum2enf`. -/
def PassStep (α : Type) : Type :=
  (ℕ → ℝ) → α → α × (ℕ → ℝ) × ℝ × ℝ

/-- Run one pass of a sweep over a record list, threading pi and summing
the `sum2all`/`sum2enf` contributions (the C++ loops `for k` over each
partition). -/
def runPass {α : Type} (step : PassStep α) :
    (ℕ → ℝ) → List α → List α × (ℕ → ℝ) × ℝ × ℝ
  | pi, [] => ([], pi, 0, 0)
  | pi, rt :: rest =>
      let r := step pi rt
      let rs := runPass step r.2.1 rest
      (r.1 :: rs.1, rs.2.1, r.2.2.1 + rs.2.2.1, r.2.2.2 + rs.2.2.2)

/-- UNCONDITIONAL pass body: row sums, batch update; the squared error
counts into both accumulators; the record is not modified. -/
noncomputable def uncondStep (participating : List ℕ) (A : ℕ → ℕ → ℝ)
    (rhs : ℕ → ℝ) (sor : ℝ) : PassStep UncondRT := fun pi rt =>
  let rowSums := doRowSums participating rt.m_mults A pi
  let upd := doUpdates A rhs sor rt.m_mults rowSums pi
  (rt, upd.2, upd.1, upd.1)

/-- UNILATERAL CONTACT NORMALS pass body: only `Participate` contacts are
processed; update then sign-bound projection; the squared error counts
into `sum2enf` only when the status is `UniActive`. -/
noncomputable def uniNormalStep (participating : List ℕ) (A : ℕ → ℕ → ℝ)
    (rhs : ℕ → ℝ) (sor : ℝ) : PassStep UniContactRT := fun pi rt =>
  if rt.m_type ≠ ContactType.Participate then (rt, pi, 0, 0)
  else
    let rowSum := doRowSum participating rt.m_Nk A pi
    let upd := doUpdate rt.m_Nk A rhs sor rowSum pi
    let bnd := boundUnilateral rt.m_sign (upd.2 rt.m_Nk)
    let pi2 := Function.update upd.2 rt.m_Nk bnd.2
    ({rt with m_contactCond := bnd.1}, pi2, upd.1,
     if bnd.1 = UniCond.UniActive then upd.1 else 0)

/-- UNILATERAL CONTACT FRICTION pass body: contacts whose normal is
`Observe` or which have no friction are skipped; otherwise batch update of
the friction rows, then vector-norm-cap projection with cap
`mu * |N|` where `N` is the known normal impulse for `Known` contacts and
the current normal multiplier otherwise; the squared error counts into
`sum2enf` only when the status is `Rolling`. -/
noncomputable def uniFrictionStep (participating : List ℕ) (A : ℕ → ℕ → ℝ)
    (rhs : ℕ → ℝ) (sor : ℝ) : PassStep UniContactRT := fun pi rt =>
  if rt.m_type = ContactType.Observe ∨ ¬rt.hasFriction then (rt, pi, 0, 0)
  else
    let rowSums := doRowSums participating rt.m_Fk A pi
    let upd := doUpdates A rhs sor rt.m_Fk rowSums pi
    let N := |if rt.m_type = ContactType.Known then rt.m_knownPi
              else upd.2 rt.m_Nk|
    let bnd := boundVector (rt.m_effMu * N) rt.m_Fk upd.2
    ({rt with m_frictionCond := bnd.1}, bnd.2, upd.1,
     if bnd.1 = FricCond.Rolling then upd.1 else 0)

/-- BOUNDED pass body: update then two-sided-bound projection; the squared
error counts into `sum2enf` only when the status is `Engaged`. -/
noncomputable def boundedStep (participating : List ℕ) (A : ℕ → ℕ → ℝ)
    (rhs : ℕ → ℝ) (sor : ℝ) : PassStep BoundedRT := fun pi rt =>
  let rowSum := doRowSum participating rt.m_ix A pi
  let upd := doUpdate rt.m_ix A rhs sor rowSum pi
  let bnd := boundScalar rt.m_lb (upd.2 rt.m_ix) rt.m_ub
  let pi2 := Function.update upd.2 rt.m_ix bnd.2
  ({rt with m_boundedCond := bnd.1}, pi2, upd.1,
   if bnd.1 = BndCond.Engaged then upd.1 else 0)

/-- STATE LIMITED FRICTION pass body: batch update then vector-norm-cap
projection with cap `mu * knownN`; counts into `sum2enf` when `Rolling`. -/
noncomputable def stateLtdStep (participating : List ℕ) (A : ℕ → ℕ → ℝ)
    (rhs : ℕ → ℝ) (sor : ℝ) : PassStep StateLtdFrictionRT := fun pi rt =>
  let rowSums := doRowSums participating rt.m_Fk A pi
  let upd := doUpdates A rhs sor rt.m_Fk rowSums pi
  let bnd := boundVector (rt.m_effMu * rt.m_knownN) rt.m_Fk upd.2
  ({rt with m_frictionCond := bnd.1}, bnd.2, upd.1,
   if bnd.1 = FricCond.Rolling then upd.1 else 0)

/-- CONSTRAINT LIMITED FRICTION pass body: batch update then friction-cone
projection against the referenced normal multipliers; counts into
`sum2enf` when `Rolling`. -/
noncomputable def consLtdStep (participating : List ℕ) (A : ℕ → ℕ → ℝ)
    (rhs : ℕ → ℝ) (sor : ℝ) : PassStep ConstraintLtdFrictionRT :=
  fun pi rt =>
  let rowSums := doRowSums participating rt.m_Fk A pi
  let upd := doUpdates A rhs sor rt.m_Fk rowSums pi
  let bnd := boundFriction rt.m_effMu rt.m_Nk rt.m_Fk upd.2
  ({rt with m_frictionCond := bnd.1}, bnd.2, upd.1,
   if bnd.1 = FricCond.Rolling then upd.1 else 0)

/-- One full PGS sweep (the body of the `for its` loop, before the rms
computation): the six passes in the source's fixed order, threading pi
and the status fields, accumulating `sum2all` and `sum2enf`. -/
noncomputable def runSweep (participating : List ℕ) (A : ℕ → ℕ → ℝ)
    (rhs : ℕ → ℝ) (unconditional : List UncondRT) (sor : ℝ)
    (st : SweepState) : SweepState × ℝ × ℝ :=
  let pU := runPass (uncondStep participating A rhs sor) st.pi unconditional
  let pN := runPass (uniNormalStep participating A rhs sor) pU.2.1
              st.uniContact
  let pF := runPass (uniFrictionStep participating A rhs sor) pN.2.1 pN.1
  let pB := runPass (boundedStep participating A rhs sor) pF.2.1 st.bounded
  let pS := runPass (stateLtdStep participating A rhs sor) pB.2.1
              st.stateLtdFriction
  let pC := runPass (consLtdStep participating A rhs sor) pS.2.1
              st.consLtdFriction
  ({ pi := pC.2.1, uniContact := pF.1, bounded := pB.1,
     stateLtdFriction := pS.1, consLtdFriction := pC.1 },
   pU.2.2.1 + pN.2.2.1 + pF.2.2.1 + pB.2.2.1 + pS.2.2.1 + pC.2.2.1,
   pU.2.2.2 + pN.2.2.2 + pF.2.2.2 + pB.2.2.2 + pS.2.2.2 + pC.2.2.2)

/-- The loop state of the iteration driver: the sweep state, the current
relaxation factor, the last computed `normRMSenf` (`none` models its
initial value `Infinity`: in IEEE arithmetic `rate = x/Infinity = 0` for
finite `x`, so the shrink test is false on the first iteration), and the
two latched adaptation flags. -/
structure IterState where
  sweep : SweepState
  sor : ℝ
  normRMSenf : Option ℝ
  decreasing : Bool
  increasing : Bool

/-- The test `rate > 1` where `rate = cur/prev` in IEEE arithmetic, with
`prev` the previous `normRMSenf` (a square root, hence nonnegative, or
`none` for the initial `Infinity`).  `cur/Infinity = 0` is not `> 1`;
`cur/0` is `+Infinity` when `cur > 0` (so `> 1`) and `NaN` when `cur = 0`
(every comparison with `NaN` is false). -/
noncomputable def rateExceedsOne (prev : Option ℝ) (cur : ℝ) : Bool :=
  match prev with
  | none => false
  | some prevV => if prevV = 0 then decide (0 < cur) else decide (1 < cur / prevV)

/-- The enforced RMS residual produced by running one sweep from the given
iteration state: `normRMSenf = sqrt(sum2enf/p)`. -/
noncomputable def sweepEnfRMS (participating : List ℕ) (A : ℕ → ℕ → ℝ)
    (rhs : ℕ → ℝ) (unconditional : List UncondRT) (st : IterState) : ℝ :=
  Real.sqrt ((runSweep participating A rhs unconditional st.sor
                st.sweep).2.2 / (participating.length : ℝ))

/-- One iteration of the driver loop: one sweep, the fresh residual norms,
then the adaptive-relaxation step.  `!increasing && rate > 1` shrinks the
relaxation factor by 20% floored at 0.1 (the shrink itself guarded by
`sor > 0.1`) and latches `decreasing`; the symmetric increase branch is
commented out in the source, so `increasing` is never set. -/
noncomputable def iterStep (participating : List ℕ) (A : ℕ → ℕ → ℝ)
    (rhs : ℕ → ℝ) (unconditional : List UncondRT) (st : IterState) :
    IterState :=
  let sw := runSweep participating A rhs unconditional st.sor st.sweep
  let newEnf := Real.sqrt (sw.2.2 / (participating.length : ℝ))
  let shrink := !st.increasing && rateExceedsOne st.normRMSenf newEnf
  { sweep := sw.1,
    sor := if shrink then
             (if (0.1 : ℝ) < st.sor then max (0.8 * st.sor) 0.1 else st.sor)
           else st.sor,
    normRMSenf := some newEnf,
    decreasing := if shrink then true else st.decreasing,
    increasing := st.increasing }

/-- The convergence test `normRMSenf < m_convergenceTol` (false while
`normRMSenf` still holds its initial `Infinity`). -/
noncomputable def enfBelow (st : IterState) (tol : ℝ) : Bool :=
  match st.normRMSenf with
  | none => false
  | some r => decide (r < tol)

/-- The iteration loop (`for (; its <= m_maxIters; ++its)`), fueled by the
remaining iteration budget.  Returns (converged, final state, number of
iterations performed). -/
noncomputable def pgsLoop (participating : List ℕ) (A : ℕ → ℕ → ℝ)
    (rhs : ℕ → ℝ) (unconditional : List UncondRT) (tol : ℝ) :
    ℕ → IterState → Bool × IterState × ℕ
  | 0, st => (false, st, 0)
  | Nat.succ fuel, st =>
      let st1 := iterStep participating A rhs unconditional st
      if enfBelow st1 tol then (true, st1, 1)
      else
        let r := pgsLoop participating A rhs unconditional tol fuel st1
        (r.1, r.2.1, r.2.2 + 1)

/-- The initial loop state on entry to `solve`: caller's pi and records,
`sor = m_SOR`, `normRMSenf = Infinity`, both adaptation flags clear. -/
def initIter (pi : ℕ → ℝ) (uniContact : List UniContactRT)
    (bounded : List BoundedRT) (stateLtdFriction : List StateLtdFrictionRT)
    (consLtdFriction : List ConstraintLtdFrictionRT) (sor : ℝ) : IterState :=
  { sweep := { pi := pi, uniContact := uniContact, bounded := bounded,
               stateLtdFriction := stateLtdFriction,
               consLtdFriction := consLtdFriction },
    sor := sor, normRMSenf := none, decreasing := false,
    increasing := false }

/-- Everything `solve` hands back to the caller: the boolean result, the
final multiplier vector, the (status-updated) runtime records, and the
increments applied to the per-phase counters `m_nSolves[phase]`,
`m_nIters[phase]` and `m_nFail[phase]`. -/
structure SolveResult where
  converged : Bool
  pi : ℕ → ℝ
  unconditional : List UncondRT
  uniContact : List UniContactRT
  uniSpeed : List UniSpeedRT
  bounded : List BoundedRT
  consLtdFriction : List ConstraintLtdFrictionRT
  stateLtdFriction : List StateLtdFrictionRT
  nSolvesInc : ℕ
  nItersInc : ℕ
  nFailInc : ℕ

/-- `PGSImpulseSolver::solve`.  `phase` is an instrumentation tag only and
`D` (the diagonal regularization vector) is accepted but never read, both
exactly as in the source.  The `uniSpeed` records are likewise never
touched by the algorithm (the sweep has no pass for them).  If the
participating set is empty the solver returns success immediately with
zero iterations. -/
noncomputable def solve (phase : ℤ) (participating : List ℕ)
    (A : ℕ → ℕ → ℝ) (D : ℕ → ℝ) (rhs : ℕ → ℝ) (pi : ℕ → ℝ)
    (unconditional : List UncondRT) (uniContact : List UniContactRT)
    (uniSpeed : List UniSpeedRT) (bounded : List BoundedRT)
    (consLtdFriction : List ConstraintLtdFrictionRT)
    (stateLtdFriction : List StateLtdFrictionRT)
    (cfg : SolverConfig) : SolveResult :=
  if participating.length = 0 then
    { converged := true, pi := pi, unconditional := unconditional,
      uniContact := uniContact, uniSpeed := uniSpeed, bounded := bounded,
      consLtdFriction := consLtdFriction,
      stateLtdFriction := stateLtdFriction,
      nSolvesInc := 1, nItersInc := 0, nFailInc := 0 }
  else
    let res := pgsLoop participating A rhs unconditional
                 cfg.m_convergenceTol cfg.m_maxIters
                 (initIter pi uniContact bounded stateLtdFriction
                    consLtdFriction cfg.m_SOR)
    { converged := res.1, pi := res.2.1.sweep.pi,
      unconditional := unconditional,
      uniContact := res.2.1.sweep.uniContact, uniSpeed := uniSpeed,
      bounded := res.2.1.sweep.bounded,
      consLtdFriction := res.2.1.sweep.consLtdFriction,
      stateLtdFriction := res.2.1.sweep.stateLtdFriction,
      nSolvesInc := 1, nItersInc := res.2.2,
      nFailInc := if res.1 then 0 else 1 }

/-- Trajectory of the iteration driver: the loop state after `n` sweeps,
starting from the state `solve` builds on entry. -/
noncomputable def solveTraj (participating : List ℕ) (A : ℕ → ℕ → ℝ)
    (rhs : ℕ → ℝ) (unconditional : List UncondRT) (pi : ℕ → ℝ)
    (uniContact : List UniContactRT) (bounded : List BoundedRT)
    (stateLtdFriction : List StateLtdFrictionRT)
    (consLtdFriction : List ConstraintLtdFrictionRT) (sor : ℝ) (n : ℕ) :
    IterState :=
  (iterStep participating A rhs unconditional)^[n]
    (initIter pi uniContact bounded stateLtdFriction consLtdFriction sor)

/-- A concrete unilateral contact whose normal is in `Observe` mode but
which carries a friction multiplier index. -/
def rtObs : UniContactRT :=
  { m_type := ContactType.Observe, m_Nk := 1, m_Fk := [0], m_sign := 1,
    m_effMu := 1, m_knownPi := 5, m_contactCond := UniCond.UniActive,
    m_frictionCond := FricCond.Sliding }

section Theorems

/-! ### Helper lemmas -/

theorem square_nonneg (x : ℝ) : 0 ≤ square x := mul_self_nonneg x

theorem doUpdate_unfold (row : ℕ) (A : ℕ → ℕ → ℝ) (rhs : ℕ → ℝ)
    (SOR s : ℝ) (pi : ℕ → ℝ) :
    doUpdate row A rhs SOR s pi =
      (square (rhs row - s),
       if 0 < A row row then
         Function.update pi row (pi row + SOR * (rhs row - s) / A row row)
       else pi) := rfl

theorem doUpdates_fst_nonneg (A : ℕ → ℕ → ℝ) (rhs : ℕ → ℝ) (SOR : ℝ) :
    ∀ (rows : List ℕ) (sums : List ℝ) (pi : ℕ → ℝ),
      0 ≤ (doUpdates A rhs SOR rows sums pi).1 := by
  intro rows
  induction rows with
  | nil => intro sums pi; simp [doUpdates]
  | cons row rest ih =>
      intro sums pi
      cases sums with
      | nil => simp [doUpdates]
      | cons s ss =>
          simp only [doUpdates]
          exact add_nonneg (square_nonneg _) (ih _ _)

theorem normSq_nonneg (IV : List ℕ) (pi : ℕ → ℝ) : 0 ≤ normSq IV pi := by
  refine List.sum_nonneg ?_
  intro x hx
  rcases List.mem_map.mp hx with ⟨i, _, rfl⟩
  exact square_nonneg _

theorem normSq_congr {IV : List ℕ} {f g : ℕ → ℝ}
    (h : ∀ i ∈ IV, f i = g i) : normSq IV f = normSq IV g := by
  unfold normSq
  exact congrArg List.sum (List.map_congr_left fun i hi => by rw [h i hi])

theorem scaleEntries_apply (c : ℝ) :
    ∀ (IV : List ℕ) (pi : ℕ → ℝ), IV.Nodup → ∀ j,
      scaleEntries IV c pi j = if j ∈ IV then pi j * c else pi j := by
  intro IV
  induction IV with
  | nil => intro pi _ j; simp [scaleEntries]
  | cons i rest ih =>
      intro pi hnd j
      rcases List.nodup_cons.mp hnd with ⟨hi, hrest⟩
      have hstep : scaleEntries (i :: rest) c pi =
          scaleEntries rest c (Function.update pi i (pi i * c)) := rfl
      rw [hstep, ih _ hrest j]
      by_cases hji : j = i
      · subst hji
        simp [hi, Function.update_same]
      · simp [hji, Function.update_noteq hji]

theorem normSq_scaleEntries (c : ℝ) (IV : List ℕ) (pi : ℕ → ℝ)
    (hnd : IV.Nodup) :
    normSq IV (scaleEntries IV c pi) = normSq IV pi * square c := by
  have h : normSq IV (scaleEntries IV c pi) =
      (IV.map fun i => square (pi i) * square c).sum := by
    unfold normSq
    refine congrArg List.sum (List.map_congr_left fun i hi => ?_)
    rw [scaleEntries_apply c IV pi hnd i, if_pos hi]
    unfold square
    ring
  rw [h, List.sum_map_mul_right]
  rfl

/-! ### C4: the vector-norm-cap projection -/

/-- Counterexample to C4 as stated: with cap `L = 0`, index set `[0]` and
`pi = 1`, the projection does scale (status `Sliding`) and the applied
factor `L/‖pi[IV]‖ = sqrt(0/1) = 0` is NOT strictly between 0 and 1 (the
scaled entry is set to 0). -/
theorem boundVector_claim_counterexample :
    (boundVector 0 [0] fun _ => (1:ℝ)).1 = FricCond.Sliding ∧
    (boundVector 0 [0] fun _ => (1:ℝ)).2 0 = 0 ∧
    Real.sqrt (square 0 / normSq [0] fun _ => (1:ℝ)) = 0 ∧
    ¬ ((0:ℝ) < 0 ∧ (0:ℝ) < 1) := by
  have h1 : normSq [0] (fun _ => (1:ℝ)) = 1 := by
    simp [normSq, square]
  have h2 : ¬ (normSq [0] (fun _ => (1:ℝ)) ≤ square 0) := by
    rw [h1]; simp [square]
  refine ⟨?_, ?_, ?_, ?_⟩
  · simp only [boundVector, h2, if_false, if_neg h2]
  · simp only [boundVector, if_neg h2]
    simp [scaleEntries, h1, square]
  · rw [h1]
    simp [square]
  · intro h
    exact lt_irrefl 0 h.1

/-- C4 (amended): for every cap `L >= 0` and duplicate-free index set
`IV`, the vector-norm-cap projection leaves `pi` unchanged and reports
`Rolling` when the Euclidean norm of `pi` over `IV` is at most `L`
(equivalently, the squared norm is at most `L^2`, which is the comparison
the code performs); otherwise it uniformly scales the `IV` components by
the factor `sqrt(L^2/‖pi[IV]‖^2) = L/‖pi[IV]‖`, which lies in `[0,1)` and
is strictly positive whenever `L > 0` (it is 0 when `L = 0`), so the
result has norm exactly `L` with direction preserved, and it reports
`Sliding`; entries of `pi` outside `IV` are never modified. -/
theorem boundVector_norm_cap_spec (L : ℝ) (IV : List ℕ) (pi : ℕ → ℝ)
    (hL : 0 ≤ L) (hnd : IV.Nodup) :
    (Real.sqrt (normSq IV pi) ≤ L ↔ normSq IV pi ≤ square L) ∧
    (normSq IV pi ≤ square L →
      boundVector L IV pi = (FricCond.Rolling, pi)) ∧
    (square L < normSq IV pi →
      (boundVector L IV pi).1 = FricCond.Sliding ∧
      (∀ j, j ∉ IV → (boundVector L IV pi).2 j = pi j) ∧
      (∀ j, j ∈ IV → (boundVector L IV pi).2 j =
          pi j * Real.sqrt (square L / normSq IV pi)) ∧
      0 ≤ Real.sqrt (square L / normSq IV pi) ∧
      Real.sqrt (square L / normSq IV pi) < 1 ∧
      (0 < L → 0 < Real.sqrt (square L / normSq IV pi)) ∧
      Real.sqrt (normSq IV (boundVector L IV pi).2) = L) := by
  have hsqL : square L = L ^ 2 := by rw [square, pow_two]
  constructor
  · rw [hsqL]
    exact Real.sqrt_le_left hL
  constructor
  · intro h
    simp only [boundVector, if_pos h]
  · intro h
    have hN0 : 0 < normSq IV pi := lt_of_le_of_lt (square_nonneg L) h
    have hratio_nonneg : 0 ≤ square L / normSq IV pi :=
      div_nonneg (square_nonneg L) hN0.le
    have hratio_lt : square L / normSq IV pi < 1 :=
      (div_lt_one hN0).mpr h
    have hbv : boundVector L IV pi =
        (FricCond.Sliding,
         scaleEntries IV (Real.sqrt (square L / normSq IV pi)) pi) := by
      simp only [boundVector, if_neg (not_le.mpr h)]
    refine ⟨by rw [hbv], ?_, ?_, Real.sqrt_nonneg _, ?_, ?_, ?_⟩
    · intro j hj
      rw [hbv]
      simp only
      rw [scaleEntries_apply _ IV pi hnd j, if_neg hj]
    · intro j hj
      rw [hbv]
      simp only
      rw [scaleEntries_apply _ IV pi hnd j, if_pos hj]
    · exact (Real.sqrt_lt' one_pos).mpr (by simpa using hratio_lt)
    · intro hLpos
      refine Real.sqrt_pos.mpr (div_pos ?_ hN0)
      rw [square]
      exact mul_pos hLpos hLpos
    · rw [hbv]
      simp only
      rw [normSq_scaleEntries _ IV pi hnd]
      have hsq : square (Real.sqrt (square L / normSq IV pi)) =
          square L / normSq IV pi := by
        rw [square, Real.mul_self_sqrt hratio_nonneg]
      rw [hsq, mul_div_assoc']
      rw [mul_comm, mul_div_assoc, div_self hN0.ne', mul_one, hsqL,
        Real.sqrt_sq hL]

/-- Witness for C4 (amended) at `L = 1`, `IV = [0]`, `pi = 2`. -/
theorem boundVector_norm_cap_spec_witness :
    (0:ℝ) ≤ 1 ∧ List.Nodup [0] ∧
    (square (1:ℝ) < normSq [0] (fun _ => (2:ℝ)) →
      (boundVector 1 [0] fun _ => (2:ℝ)).1 = FricCond.Sliding ∧
      (∀ j, j ∉ [0] → (boundVector 1 [0] fun _ => (2:ℝ)).2 j = 2) ∧
      (∀ j, j ∈ [0] → (boundVector 1 [0] fun _ => (2:ℝ)).2 j =
          2 * Real.sqrt (square 1 / normSq [0] fun _ => (2:ℝ))) ∧
      0 ≤ Real.sqrt (square 1 / normSq [0] fun _ => (2:ℝ)) ∧
      Real.sqrt (square 1 / normSq [0] fun _ => (2:ℝ)) < 1 ∧
      ((0:ℝ) < 1 → 0 < Real.sqrt (square 1 / normSq [0] fun _ => (2:ℝ))) ∧
      Real.sqrt (normSq [0] (boundVector 1 [0] fun _ => (2:ℝ)).2) = 1) :=
  ⟨by norm_num, by decide,
   (boundVector_norm_cap_spec 1 [0] (fun _ => (2:ℝ)) (by norm_num)
     (by decide)).2.2⟩

/-! ### C5: idempotence of the projection operators -/

/-- Counterexample to C5 as stated: the sign-bound projection applied to
`pi = 1` with sign convention `+1` clamps to 0 and reports `UniOff`
(released); re-applying it to its own output returns the same value 0 but
reports `UniActive` — the reported status is NOT the same. -/
theorem projection_status_not_idempotent :
    (boundUnilateral 1 1).1 = UniCond.UniOff ∧
    (boundUnilateral 1 (boundUnilateral 1 1).2).1 = UniCond.UniActive ∧
    UniCond.UniOff ≠ UniCond.UniActive := by
  have h1 : boundUnilateral (1:ℝ) 1 = (UniCond.UniOff, 0) := by
    simp only [boundUnilateral, mul_one, if_pos one_pos]
  have h2 : boundUnilateral (1:ℝ) 0 = (UniCond.UniActive, 0) := by
    simp only [boundUnilateral, mul_zero, lt_irrefl, if_false, if_neg
      (lt_irrefl 0)]
  rw [h1, h2]
  exact ⟨rfl, rfl, by simp⟩

/-- C5 (amended): each of the four projection operators (sign-bound,
two-sided scalar bound with `lb <= ub`, vector-norm cap and friction-cone
cap over duplicate-free index sets, the normal set disjoint from the
friction set) is idempotent on the multiplier values: applying the
operator a second time to its own output, with no intervening update,
leaves the multiplier vector unchanged.  The reported status, however,
need not be the same (see the counterexample: a clamping first
application reports the clamped status, the second reports the interior
status). -/
theorem projections_idempotent_on_multipliers (s x lb ub L mu : ℝ)
    (IV IN IFk : List ℕ) (pi : ℕ → ℝ)
    (hlb : lb ≤ ub) (hIV : IV.Nodup) (hIF : IFk.Nodup)
    (hdisj : ∀ i, i ∈ IN → i ∉ IFk) :
    (boundUnilateral s (boundUnilateral s x).2).2 =
        (boundUnilateral s x).2 ∧
    (boundScalar lb (boundScalar lb x ub).2 ub).2 =
        (boundScalar lb x ub).2 ∧
    (boundVector L IV (boundVector L IV pi).2).2 =
        (boundVector L IV pi).2 ∧
    (boundFriction mu IN IFk (boundFriction mu IN IFk pi).2).2 =
        (boundFriction mu IN IFk pi).2 := by
  refine ⟨?_, ?_, ?_, ?_⟩
  · by_cases h : 0 < s * x
    · simp [boundUnilateral, h]
    · simp [boundUnilateral, h]
  · by_cases h : ub < x
    · simp only [boundScalar, if_pos h, if_neg (lt_irrefl ub),
        if_neg (not_lt.mpr hlb)]
    · simp only [boundScalar, if_neg h]
      by_cases h2 : x < lb
      · simp only [if_pos h2, if_neg (not_lt.mpr hlb),
          if_neg (lt_irrefl lb)]
      · simp only [if_neg h2, if_neg h]
  · by_cases h : normSq IV pi ≤ square L
    · simp only [boundVector, if_pos h]
    · have hN0 : 0 < normSq IV pi :=
        lt_of_le_of_lt (square_nonneg L) (not_le.mp h)
      have hfst : boundVector L IV pi =
          (FricCond.Sliding,
           scaleEntries IV (Real.sqrt (square L / normSq IV pi)) pi) := by
        simp only [boundVector, if_neg h]
      rw [hfst]
      simp only
      have hnew : normSq IV
          (scaleEntries IV (Real.sqrt (square L / normSq IV pi)) pi) =
          square L := by
        rw [normSq_scaleEntries _ IV pi hIV, square,
          Real.mul_self_sqrt
            (div_nonneg (square_nonneg L) hN0.le)]
        field_simp
      simp only [boundVector, hnew, le_refl, if_true, if_pos (le_refl _)]
  · by_cases h : normSq IFk pi ≤ mu * mu * normSq IN pi
    · simp only [boundFriction, if_pos h]
    · have hF0 : 0 < normSq IFk pi :=
        lt_of_le_of_lt
          (mul_nonneg (mul_self_nonneg mu) (normSq_nonneg IN pi))
          (not_le.mp h)
      have hfst : boundFriction mu IN IFk pi =
          (FricCond.Sliding,
           scaleEntries IFk
             (Real.sqrt (mu * mu * normSq IN pi / normSq IFk pi)) pi) := by
        simp only [boundFriction, if_neg h]
      rw [hfst]
      simp only
      set c := Real.sqrt (mu * mu * normSq IN pi / normSq IFk pi) with hc
      have hNsame : normSq IN (scaleEntries IFk c pi) = normSq IN pi := by
        refine normSq_congr fun i hi => ?_
        rw [scaleEntries_apply c IFk pi hIF i, if_neg (hdisj i hi)]
      have hFnew : normSq IFk (scaleEntries IFk c pi) =
          mu * mu * normSq IN pi := by
        rw [normSq_scaleEntries c IFk pi hIF, hc, square,
          Real.mul_self_sqrt
            (div_nonneg
              (mul_nonneg (mul_self_nonneg mu) (normSq_nonneg IN pi))
              hF0.le)]
        field_simp
      simp only [boundFriction, hNsame, hFnew, le_refl, if_true]

/-- Witness for C5 (amended) at concrete inputs: sign 1, value 2, bounds
`[0,1]`, cap `L = 1` on `IV = [0]`, `mu = 1` with empty normal set and
friction set `[0]`, `pi = 2`. -/
theorem projections_idempotent_on_multipliers_witness :
    (0:ℝ) ≤ 1 ∧ List.Nodup [0] ∧
    ((boundUnilateral 1 ((boundUnilateral 1 (2:ℝ)).2)).2 =
        (boundUnilateral 1 (2:ℝ)).2 ∧
     (boundScalar 0 ((boundScalar 0 (2:ℝ) 1).2) 1).2 =
        (boundScalar 0 (2:ℝ) 1).2 ∧
     (boundVector 1 [0] ((boundVector 1 [0] fun _ => (2:ℝ)).2)).2 =
        (boundVector 1 [0] fun _ => (2:ℝ)).2 ∧
     (boundFriction 1 [] [0] ((boundFriction 1 [] [0] fun _ => (2:ℝ)).2)).2
        = (boundFriction 1 [] [0] fun _ => (2:ℝ)).2) :=
  ⟨by norm_num, by decide,
   projections_idempotent_on_multipliers 1 2 0 1 1 1 [0] [] [0]
     (fun _ => (2:ℝ)) (by norm_num) (by decide) (by decide)
     (fun i hi => absurd hi (List.not_mem_nil i))⟩

/-! ### C7: the residual accumulators -/

theorem runPass_sums_bounds {α : Type} (step : PassStep α)
    (h : ∀ (pi : ℕ → ℝ) (rt : α),
      0 ≤ (step pi rt).2.2.2 ∧ (step pi rt).2.2.2 ≤ (step pi rt).2.2.1) :
    ∀ (l : List α) (pi : ℕ → ℝ),
      0 ≤ (runPass step pi l).2.2.2 ∧
      (runPass step pi l).2.2.2 ≤ (runPass step pi l).2.2.1 := by
  intro l
  induction l with
  | nil => intro pi; simp [runPass]
  | cons rt rest ih =>
      intro pi
      have h1 := h pi rt
      have h2 := ih (step pi rt).2.1
      simp only [runPass]
      exact ⟨add_nonneg h1.1 h2.1, add_le_add h1.2 h2.2⟩

theorem uncondStep_sums_bounds (participating : List ℕ) (A : ℕ → ℕ → ℝ)
    (rhs : ℕ → ℝ) (sor : ℝ) (pi : ℕ → ℝ) (rt : UncondRT) :
    0 ≤ (uncondStep participating A rhs sor pi rt).2.2.2 ∧
    (uncondStep participating A rhs sor pi rt).2.2.2 ≤
      (uncondStep participating A rhs sor pi rt).2.2.1 := by
  exact ⟨doUpdates_fst_nonneg _ _ _ _ _ _, le_refl _⟩

theorem ite_enf_bounds {c : Prop} [Decidable c] {u : ℝ} (hu : 0 ≤ u) :
    0 ≤ (if c then u else 0) ∧ (if c then u else 0) ≤ u := by
  split
  · exact ⟨hu, le_refl u⟩
  · exact ⟨le_refl 0, hu⟩

theorem uniNormalStep_sums_bounds (participating : List ℕ)
    (A : ℕ → ℕ → ℝ) (rhs : ℕ → ℝ) (sor : ℝ) (pi : ℕ → ℝ)
    (rt : UniContactRT) :
    0 ≤ (uniNormalStep participating A rhs sor pi rt).2.2.2 ∧
    (uniNormalStep participating A rhs sor pi rt).2.2.2 ≤
      (uniNormalStep participating A rhs sor pi rt).2.2.1 := by
  simp only [uniNormalStep]
  by_cases h : rt.m_type ≠ ContactType.Participate
  · rw [if_pos h]
    simp
  · rw [if_neg h]
    exact ite_enf_bounds (square_nonneg _)

theorem uniFrictionStep_sums_bounds (participating : List ℕ)
    (A : ℕ → ℕ → ℝ) (rhs : ℕ → ℝ) (sor : ℝ) (pi : ℕ → ℝ)
    (rt : UniContactRT) :
    0 ≤ (uniFrictionStep participating A rhs sor pi rt).2.2.2 ∧
    (uniFrictionStep participating A rhs sor pi rt).2.2.2 ≤
      (uniFrictionStep participating A rhs sor pi rt).2.2.1 := by
  simp only [uniFrictionStep]
  by_cases h : rt.m_type = ContactType.Observe ∨ ¬rt.hasFriction
  · rw [if_pos h]
    simp
  · rw [if_neg h]
    exact ite_enf_bounds (doUpdates_fst_nonneg _ _ _ _ _ _)

theorem boundedStep_sums_bounds (participating : List ℕ) (A : ℕ → ℕ → ℝ)
    (rhs : ℕ → ℝ) (sor : ℝ) (pi : ℕ → ℝ) (rt : BoundedRT) :
    0 ≤ (boundedStep participating A rhs sor pi rt).2.2.2 ∧
    (boundedStep participating A rhs sor pi rt).2.2.2 ≤
      (boundedStep participating A rhs sor pi rt).2.2.1 :=
  ite_enf_bounds (square_nonneg _)

theorem stateLtdStep_sums_bounds (participating : List ℕ)
    (A : ℕ → ℕ → ℝ) (rhs : ℕ → ℝ) (sor : ℝ) (pi : ℕ → ℝ)
    (rt : StateLtdFrictionRT) :
    0 ≤ (stateLtdStep participating A rhs sor pi rt).2.2.2 ∧
    (stateLtdStep participating A rhs sor pi rt).2.2.2 ≤
      (stateLtdStep participating A rhs sor pi rt).2.2.1 :=
  ite_enf_bounds (doUpdates_fst_nonneg _ _ _ _ _ _)

theorem consLtdStep_sums_bounds (participating : List ℕ)
    (A : ℕ → ℕ → ℝ) (rhs : ℕ → ℝ) (sor : ℝ) (pi : ℕ → ℝ)
    (rt : ConstraintLtdFrictionRT) :
    0 ≤ (consLtdStep participating A rhs sor pi rt).2.2.2 ∧
    (consLtdStep participating A rhs sor pi rt).2.2.2 ≤
      (consLtdStep participating A rhs sor pi rt).2.2.1 :=
  ite_enf_bounds (doUpdates_fst_nonneg _ _ _ _ _ _)

/-- C7: at the end of every sweep of the iteration loop (and hence in
every iteration of `solve`), the residual accumulators satisfy
`sum_all >= sum_enforced >= 0`: each partition's non-negative squared
error always enters `sum_all` and enters `sum_enforced` only when the
partition's status is enforced. -/
theorem sweep_residual_sums_invariant (participating : List ℕ)
    (A : ℕ → ℕ → ℝ) (rhs : ℕ → ℝ) (unconditional : List UncondRT)
    (sor : ℝ) (st : SweepState) :
    0 ≤ (runSweep participating A rhs unconditional sor st).2.2 ∧
    (runSweep participating A rhs unconditional sor st).2.2 ≤
      (runSweep participating A rhs unconditional sor st).2.1 := by
  simp only [runSweep]
  constructor
  · exact add_nonneg (add_nonneg (add_nonneg (add_nonneg (add_nonneg
      (runPass_sums_bounds _
        (uncondStep_sums_bounds participating A rhs sor) _ _).1
      (runPass_sums_bounds _
        (uniNormalStep_sums_bounds participating A rhs sor) _ _).1)
      (runPass_sums_bounds _
        (uniFrictionStep_sums_bounds participating A rhs sor) _ _).1)
      (runPass_sums_bounds _
        (boundedStep_sums_bounds participating A rhs sor) _ _).1)
      (runPass_sums_bounds _
        (stateLtdStep_sums_bounds participating A rhs sor) _ _).1)
      (runPass_sums_bounds _
        (consLtdStep_sums_bounds participating A rhs sor) _ _).1
  · exact add_le_add (add_le_add (add_le_add (add_le_add (add_le_add
      (runPass_sums_bounds _
        (uncondStep_sums_bounds participating A rhs sor) _ _).2
      (runPass_sums_bounds _
        (uniNormalStep_sums_bounds participating A rhs sor) _ _).2)
      (runPass_sums_bounds _
        (uniFrictionStep_sums_bounds participating A rhs sor) _ _).2)
      (runPass_sums_bounds _
        (boundedStep_sums_bounds participating A rhs sor) _ _).2)
      (runPass_sums_bounds _
        (stateLtdStep_sums_bounds participating A rhs sor) _ _).2)
      (runPass_sums_bounds _
        (consLtdStep_sums_bounds participating A rhs sor) _ _).2

/-! ### C8: the relaxation factor -/

/-- C8: across one call to `solve` the relaxation factor is non-increasing
from iteration to iteration and a strict decrease never lands below the
floor 0.1; it is shrunk (to `max(0.8*sor, 0.1)`) exactly when the
enforced-RMS ratio exceeds 1, the relax-upward mode has not been
triggered, and `sor` exceeds 0.1; otherwise it is unchanged; it is never
increased. -/
theorem iterStep_sor_monotone (participating : List ℕ) (A : ℕ → ℕ → ℝ)
    (rhs : ℕ → ℝ) (unconditional : List UncondRT) (st : IterState) :
    ((iterStep participating A rhs unconditional st).sor ≤ st.sor) ∧
    ((iterStep participating A rhs unconditional st).sor < st.sor →
      (0.1 : ℝ) ≤ (iterStep participating A rhs unconditional st).sor) ∧
    ((!st.increasing && rateExceedsOne st.normRMSenf
          (sweepEnfRMS participating A rhs unconditional st)) = true →
      (0.1 : ℝ) < st.sor →
      (iterStep participating A rhs unconditional st).sor =
        max (0.8 * st.sor) 0.1) ∧
    ((!st.increasing && rateExceedsOne st.normRMSenf
          (sweepEnfRMS participating A rhs unconditional st)) = false →
      (iterStep participating A rhs unconditional st).sor = st.sor) ∧
    ((!st.increasing && rateExceedsOne st.normRMSenf
          (sweepEnfRMS participating A rhs unconditional st)) = true →
      st.sor ≤ (0.1 : ℝ) →
      (iterStep participating A rhs unconditional st).sor = st.sor) ∧
    (∀ n, ((iterStep participating A rhs unconditional)^[n + 1] st).sor ≤
      ((iterStep participating A rhs unconditional)^[n] st).sor) := by
  have key : ∀ t : IterState,
      ((iterStep participating A rhs unconditional t).sor ≤ t.sor) ∧
      ((iterStep participating A rhs unconditional t).sor < t.sor →
        (0.1 : ℝ) ≤ (iterStep participating A rhs unconditional t).sor) ∧
      ((!t.increasing && rateExceedsOne t.normRMSenf
            (sweepEnfRMS participating A rhs unconditional t)) = true →
        (0.1 : ℝ) < t.sor →
        (iterStep participating A rhs unconditional t).sor =
          max (0.8 * t.sor) 0.1) ∧
      ((!t.increasing && rateExceedsOne t.normRMSenf
            (sweepEnfRMS participating A rhs unconditional t)) = false →
        (iterStep participating A rhs unconditional t).sor = t.sor) ∧
      ((!t.increasing && rateExceedsOne t.normRMSenf
            (sweepEnfRMS participating A rhs unconditional t)) = true →
        t.sor ≤ (0.1 : ℝ) →
        (iterStep participating A rhs unconditional t).sor = t.sor) := by
    intro t
    have hsor : (iterStep participating A rhs unconditional t).sor =
        if (!t.increasing && rateExceedsOne t.normRMSenf
              (sweepEnfRMS participating A rhs unconditional t)) then
          (if (0.1 : ℝ) < t.sor then max (0.8 * t.sor) 0.1 else t.sor)
        else t.sor := by
      simp only [iterStep, sweepEnfRMS]
    by_cases hb : (!t.increasing && rateExceedsOne t.normRMSenf
        (sweepEnfRMS participating A rhs unconditional t)) = true
    · by_cases hs : (0.1 : ℝ) < t.sor
      · have hval : (iterStep participating A rhs unconditional t).sor =
            max (0.8 * t.sor) 0.1 := by rw [hsor, if_pos hb, if_pos hs]
        refine ⟨?_, ?_, fun _ _ => hval, ?_,
          fun _ hle => absurd hs (not_lt.mpr hle)⟩
        · rw [hval]
          refine max_le ?_ hs.le
          nlinarith
        · intro _
          rw [hval]
          exact le_max_right _ _
        · intro hb2
          rw [hb] at hb2
          exact absurd hb2 (by simp)
      · have hval : (iterStep participating A rhs unconditional t).sor =
            t.sor := by rw [hsor, if_pos hb, if_neg hs]
        refine ⟨le_of_eq hval, ?_, fun _ hs2 => absurd hs2 hs, ?_,
          fun _ _ => hval⟩
        · intro hlt
          rw [hval] at hlt
          exact absurd hlt (lt_irrefl _)
        · intro _
          exact hval
    · have hb2 : (!t.increasing && rateExceedsOne t.normRMSenf
          (sweepEnfRMS participating A rhs unconditional t)) = false := by
        revert hb
        cases (!t.increasing && rateExceedsOne t.normRMSenf
          (sweepEnfRMS participating A rhs unconditional t)) <;> simp
      have hval : (iterStep participating A rhs unconditional t).sor =
          t.sor := by rw [hsor, hb2, if_neg (by simp)]
      refine ⟨le_of_eq hval, ?_, fun hb3 _ => ?_, fun _ => hval,
        fun hb3 _ => ?_⟩
      · intro hlt
        rw [hval] at hlt
        exact absurd hlt (lt_irrefl _)
      · rw [hb3] at hb2
        exact absurd hb2 (by simp)
      · rw [hb3] at hb2
        exact absurd hb2 (by simp)
  refine ⟨(key st).1, (key st).2.1, (key st).2.2.1, (key st).2.2.2.1,
    (key st).2.2.2.2, ?_⟩
  intro n
  rw [Function.iterate_succ_apply']
  exact (key ((iterStep participating A rhs unconditional)^[n] st)).1

/-- Witness for C8 at a concrete state (empty problem, sor = 1). -/
theorem iterStep_sor_monotone_witness :
    ((!(initIter (fun _ => (0:ℝ)) [] [] [] [] 1).increasing &&
        rateExceedsOne (initIter (fun _ => (0:ℝ)) [] [] [] [] 1).normRMSenf
          (sweepEnfRMS [0] (fun _ _ => 1) (fun _ => 1) []
            (initIter (fun _ => (0:ℝ)) [] [] [] [] 1))) = false) ∧
    (iterStep [0] (fun _ _ => 1) (fun _ => 1) []
        (initIter (fun _ => (0:ℝ)) [] [] [] [] 1)).sor =
      (initIter (fun _ => (0:ℝ)) [] [] [] [] 1).sor := by
  have hfalse : (!(initIter (fun _ => (0:ℝ)) [] [] [] [] 1).increasing &&
      rateExceedsOne (initIter (fun _ => (0:ℝ)) [] [] [] [] 1).normRMSenf
        (sweepEnfRMS [0] (fun _ _ => 1) (fun _ => 1) []
          (initIter (fun _ => (0:ℝ)) [] [] [] [] 1))) = false := by
    simp [initIter, rateExceedsOne]
  exact ⟨hfalse,
    (iterStep_sor_monotone [0] (fun _ _ => 1) (fun _ => 1) []
      (initIter (fun _ => (0:ℝ)) [] [] [] [] 1)).2.2.2.1 hfalse⟩

/-! ### C9: the unilateral-contact friction pass -/

/-- Counterexample to C9 as stated: a contact in `Observe` mode that has a
friction index is skipped by the friction pass — its friction multiplier
receives no update and no projection, its status field is untouched and
nothing enters the residual accumulators — whereas the claim's "any
normal mode" update would have moved `pi[0]` from 0 to 1 here. -/
theorem uniFriction_observe_skipped :
    uniFrictionStep [0] (fun _ _ => (1:ℝ)) (fun _ => 1) 1 (fun _ => 0)
        rtObs = (rtObs, fun _ => (0:ℝ), 0, 0) ∧
    (doUpdates (fun _ _ => (1:ℝ)) (fun _ => 1) 1 rtObs.m_Fk
        (doRowSums [0] rtObs.m_Fk (fun _ _ => (1:ℝ)) fun _ => 0)
        fun _ => 0).2 0 = 1 ∧
    ((0:ℝ) ≠ 1) := by
  refine ⟨?_, ?_, by norm_num⟩
  · simp [uniFrictionStep, rtObs]
  · simp only [rtObs, doRowSums, doUpdates, doRowSum, List.map_cons,
      List.map_nil, List.sum_cons, List.sum_nil]
    norm_num

/-- C9 (amended): in step 3 of every sweep, the friction multipliers of
every unilateral contact whose normal mode is `Participate` or `Known`
(but NOT `Observe`, which is skipped together with contacts lacking
friction) are updated by the SOR batch update and then projected with the
vector-norm cap `mu*|normal|`, where the normal value is the just-solved
`pi` value for a participating normal or the externally supplied fixed
value when the normal mode is `Known`; only the friction status field of
the record is modified; the squared residual always enters `sum_all` and
enters `sum_enforced` if and only if the status is `Rolling`. -/
theorem uniFriction_pass_spec (participating : List ℕ) (A : ℕ → ℕ → ℝ)
    (rhs : ℕ → ℝ) (sor : ℝ) (pi : ℕ → ℝ) (rt : UniContactRT) :
    (rt.m_type = ContactType.Observe ∨ ¬rt.hasFriction →
      uniFrictionStep participating A rhs sor pi rt = (rt, pi, 0, 0)) ∧
    (rt.m_type ≠ ContactType.Observe → rt.hasFriction →
      (uniFrictionStep participating A rhs sor pi rt).2.1 =
        (boundVector
          (rt.m_effMu * |if rt.m_type = ContactType.Known then rt.m_knownPi
            else (doUpdates A rhs sor rt.m_Fk
              (doRowSums participating rt.m_Fk A pi) pi).2 rt.m_Nk|)
          rt.m_Fk
          (doUpdates A rhs sor rt.m_Fk
            (doRowSums participating rt.m_Fk A pi) pi).2).2 ∧
      (uniFrictionStep participating A rhs sor pi rt).1 =
        { rt with m_frictionCond :=
            (boundVector
              (rt.m_effMu * |if rt.m_type = ContactType.Known then
                  rt.m_knownPi
                else (doUpdates A rhs sor rt.m_Fk
                  (doRowSums participating rt.m_Fk A pi) pi).2 rt.m_Nk|)
              rt.m_Fk
              (doUpdates A rhs sor rt.m_Fk
                (doRowSums participating rt.m_Fk A pi) pi).2).1 } ∧
      (uniFrictionStep participating A rhs sor pi rt).2.2.1 =
        (doUpdates A rhs sor rt.m_Fk
          (doRowSums participating rt.m_Fk A pi) pi).1 ∧
      ((uniFrictionStep participating A rhs sor pi rt).2.2.2 =
        if (uniFrictionStep participating A rhs sor pi rt).1.m_frictionCond
            = FricCond.Rolling then
          (doUpdates A rhs sor rt.m_Fk
            (doRowSums participating rt.m_Fk A pi) pi).1
        else 0)) := by
  constructor
  · intro h
    simp only [uniFrictionStep, if_pos h]
  · intro h1 h2
    have hcond : ¬ (rt.m_type = ContactType.Observe ∨ ¬rt.hasFriction) := by
      intro h
      rcases h with h | h
      · exact h1 h
      · exact h h2
    simp only [uniFrictionStep, if_neg hcond]
    exact ⟨trivial, trivial, trivial, trivial⟩

/-- Witness for C9 (amended) at a `Known`-mode contact with friction
index [0]. -/
theorem uniFriction_pass_spec_witness :
    ({ m_type := ContactType.Known, m_Nk := 1, m_Fk := [0], m_sign := 1,
       m_effMu := 1, m_knownPi := 5, m_contactCond := UniCond.UniActive,
       m_frictionCond := FricCond.Sliding : UniContactRT }.m_type ≠
        ContactType.Observe) ∧
    (uniFrictionStep [0] (fun _ _ => (1:ℝ)) (fun _ => 1) 1 (fun _ => 0)
        { m_type := ContactType.Known, m_Nk := 1, m_Fk := [0], m_sign := 1,
          m_effMu := 1, m_knownPi := 5, m_contactCond := UniCond.UniActive,
          m_frictionCond := FricCond.Sliding }).2.2.1 =
      (doUpdates (fun _ _ => (1:ℝ)) (fun _ => 1) 1
        ({ m_type := ContactType.Known, m_Nk := 1, m_Fk := [0],
           m_sign := 1, m_effMu := 1, m_knownPi := 5,
           m_contactCond := UniCond.UniActive,
           m_frictionCond := FricCond.Sliding : UniContactRT }).m_Fk
        (doRowSums [0]
          ({ m_type := ContactType.Known, m_Nk := 1, m_Fk := [0],
             m_sign := 1, m_effMu := 1, m_knownPi := 5,
             m_contactCond := UniCond.UniActive,
             m_frictionCond := FricCond.Sliding : UniContactRT }).m_Fk
          (fun _ _ => (1:ℝ)) fun _ => 0)
        fun _ => 0).1 :=
  ⟨by simp,
   ((uniFriction_pass_spec [0] (fun _ _ => (1:ℝ)) (fun _ => 1) 1
      (fun _ => 0)
      { m_type := ContactType.Known, m_Nk := 1, m_Fk := [0], m_sign := 1,
        m_effMu := 1, m_knownPi := 5, m_contactCond := UniCond.UniActive,
        m_frictionCond := FricCond.Sliding }).2
     (by simp) (by simp [UniContactRT.hasFriction])).2.2.1⟩

/-! ### C2: convergence, termination and the failure counter -/

theorem iterStep_normRMSenf (participating : List ℕ) (A : ℕ → ℕ → ℝ)
    (rhs : ℕ → ℝ) (unconditional : List UncondRT) (st : IterState) :
    (iterStep participating A rhs unconditional st).normRMSenf =
      some (sweepEnfRMS participating A rhs unconditional st) := by
  simp only [iterStep, sweepEnfRMS]

theorem enfBelow_iterStep (participating : List ℕ) (A : ℕ → ℕ → ℝ)
    (rhs : ℕ → ℝ) (unconditional : List UncondRT) (tol : ℝ)
    (st : IterState) :
    enfBelow (iterStep participating A rhs unconditional st) tol = true ↔
      sweepEnfRMS participating A rhs unconditional st < tol := by
  rw [enfBelow, iterStep_normRMSenf]
  simp

theorem pgsLoop_succ_pos (participating : List ℕ) (A : ℕ → ℕ → ℝ)
    (rhs : ℕ → ℝ) (unconditional : List UncondRT) (tol : ℝ) (fuel : ℕ)
    (st : IterState)
    (h : enfBelow (iterStep participating A rhs unconditional st) tol
      = true) :
    pgsLoop participating A rhs unconditional tol (fuel + 1) st =
      (true, iterStep participating A rhs unconditional st, 1) := by
  simp only [pgsLoop]
  rw [if_pos h]

theorem pgsLoop_succ_neg (participating : List ℕ) (A : ℕ → ℕ → ℝ)
    (rhs : ℕ → ℝ) (unconditional : List UncondRT) (tol : ℝ) (fuel : ℕ)
    (st : IterState)
    (h : enfBelow (iterStep participating A rhs unconditional st) tol
      = false) :
    pgsLoop participating A rhs unconditional tol (fuel + 1) st =
      ((pgsLoop participating A rhs unconditional tol fuel
          (iterStep participating A rhs unconditional st)).1,
       (pgsLoop participating A rhs unconditional tol fuel
          (iterStep participating A rhs unconditional st)).2.1,
       (pgsLoop participating A rhs unconditional tol fuel
          (iterStep participating A rhs unconditional st)).2.2 + 1) := by
  simp only [pgsLoop]
  rw [if_neg (by rw [h]; simp)]

theorem pgsLoop_conv_iff (participating : List ℕ) (A : ℕ → ℕ → ℝ)
    (rhs : ℕ → ℝ) (unconditional : List UncondRT) (tol : ℝ) :
    ∀ (fuel : ℕ) (st : IterState),
      (pgsLoop participating A rhs unconditional tol fuel st).1 = true ↔
      ∃ n, n < fuel ∧
        sweepEnfRMS participating A rhs unconditional
          ((iterStep participating A rhs unconditional)^[n] st) < tol := by
  intro fuel
  induction fuel with
  | zero =>
      intro st
      simp [pgsLoop]
  | succ fuel ih =>
      intro st
      rcases Bool.eq_false_or_eq_true
        (enfBelow (iterStep participating A rhs unconditional st) tol)
        with hEB | hEB
      · rw [pgsLoop_succ_pos participating A rhs unconditional tol fuel st
          hEB]
        constructor
        · intro _
          exact ⟨0, Nat.succ_pos fuel,
            by simpa using (enfBelow_iterStep participating A rhs
              unconditional tol st).mp hEB⟩
        · intro _
          rfl
      · rw [pgsLoop_succ_neg participating A rhs unconditional tol fuel st
          hEB]
        rw [show ((pgsLoop participating A rhs unconditional tol fuel
            (iterStep participating A rhs unconditional st)).1,
            (pgsLoop participating A rhs unconditional tol fuel
              (iterStep participating A rhs unconditional st)).2.1,
            (pgsLoop participating A rhs unconditional tol fuel
              (iterStep participating A rhs unconditional st)).2.2 + 1).1
          = (pgsLoop participating A rhs unconditional tol fuel
              (iterStep participating A rhs unconditional st)).1 from rfl]
        rw [ih (iterStep participating A rhs unconditional st)]
        constructor
        · rintro ⟨n, hn, hlt⟩
          refine ⟨n + 1, Nat.succ_lt_succ hn, ?_⟩
          rwa [Function.iterate_succ_apply]
        · rintro ⟨n, hn, hlt⟩
          cases n with
          | zero =>
              exfalso
              have : enfBelow
                  (iterStep participating A rhs unconditional st) tol
                  = true :=
                (enfBelow_iterStep participating A rhs unconditional tol
                  st).mpr (by simpa using hlt)
              rw [hEB] at this
              exact Bool.false_ne_true this
          | succ n =>
              refine ⟨n, Nat.lt_of_succ_lt_succ hn, ?_⟩
              rwa [Function.iterate_succ_apply] at hlt

theorem pgsLoop_success_char (participating : List ℕ) (A : ℕ → ℕ → ℝ)
    (rhs : ℕ → ℝ) (unconditional : List UncondRT) (tol : ℝ) :
    ∀ (fuel : ℕ) (st : IterState),
      (pgsLoop participating A rhs unconditional tol fuel st).1 = true →
      ∃ n, n < fuel ∧
        (∀ k, k < n → ¬ (sweepEnfRMS participating A rhs unconditional
          ((iterStep participating A rhs unconditional)^[k] st) < tol)) ∧
        sweepEnfRMS participating A rhs unconditional
          ((iterStep participating A rhs unconditional)^[n] st) < tol ∧
        (pgsLoop participating A rhs unconditional tol fuel st).2.1 =
          (iterStep participating A rhs unconditional)^[n + 1] st ∧
        (pgsLoop participating A rhs unconditional tol fuel st).2.2 =
          n + 1 := by
  intro fuel
  induction fuel with
  | zero =>
      intro st h
      simp [pgsLoop] at h
  | succ fuel ih =>
      intro st h
      rcases Bool.eq_false_or_eq_true
        (enfBelow (iterStep participating A rhs unconditional st) tol)
        with hEB | hEB
      · rw [pgsLoop_succ_pos participating A rhs unconditional tol fuel st
          hEB]
        refine ⟨0, Nat.succ_pos fuel, ?_, ?_, ?_, ?_⟩
        · intro k hk
          exact absurd hk (Nat.not_lt_zero k)
        · simpa using (enfBelow_iterStep participating A rhs unconditional
            tol st).mp hEB
        · show iterStep participating A rhs unconditional st =
            (iterStep participating A rhs unconditional)^[0 + 1] st
          simp
        · rfl
      · rw [pgsLoop_succ_neg participating A rhs unconditional tol fuel st
          hEB] at h ⊢
        obtain ⟨n, hn, hmin, hlt, hst, hits⟩ :=
          ih (iterStep participating A rhs unconditional st) h
        refine ⟨n + 1, Nat.succ_lt_succ hn, ?_, ?_, ?_, ?_⟩
        · intro k hk
          cases k with
          | zero =>
              intro hcon
              have : enfBelow
                  (iterStep participating A rhs unconditional st) tol
                  = true :=
                (enfBelow_iterStep participating A rhs unconditional tol
                  st).mpr (by simpa using hcon)
              rw [hEB] at this
              exact Bool.false_ne_true this
          | succ k =>
              have hk2 := hmin k (Nat.lt_of_succ_lt_succ hk)
              rwa [← Function.iterate_succ_apply] at hk2
        · rwa [Function.iterate_succ_apply]
        · show (pgsLoop participating A rhs unconditional tol fuel
              (iterStep participating A rhs unconditional st)).2.1 = _
          rw [hst, ← Function.iterate_succ_apply]
        · show (pgsLoop participating A rhs unconditional tol fuel
              (iterStep participating A rhs unconditional st)).2.2 + 1 =
            n + 1 + 1
          rw [hits]

theorem pgsLoop_failure_char (participating : List ℕ) (A : ℕ → ℕ → ℝ)
    (rhs : ℕ → ℝ) (unconditional : List UncondRT) (tol : ℝ) :
    ∀ (fuel : ℕ) (st : IterState),
      (pgsLoop participating A rhs unconditional tol fuel st).1 = false →
      (pgsLoop participating A rhs unconditional tol fuel st).2.1 =
        (iterStep participating A rhs unconditional)^[fuel] st ∧
      (pgsLoop participating A rhs unconditional tol fuel st).2.2 =
        fuel := by
  intro fuel
  induction fuel with
  | zero =>
      intro st _
      exact ⟨rfl, rfl⟩
  | succ fuel ih =>
      intro st h
      rcases Bool.eq_false_or_eq_true
        (enfBelow (iterStep participating A rhs unconditional st) tol)
        with hEB | hEB
      · rw [pgsLoop_succ_pos participating A rhs unconditional tol fuel st
          hEB] at h
        exact absurd h (by simp)
      · rw [pgsLoop_succ_neg participating A rhs unconditional tol fuel st
          hEB] at h ⊢
        obtain ⟨hst, hits⟩ :=
          ih (iterStep participating A rhs unconditional st) h
        constructor
        · show (pgsLoop participating A rhs unconditional tol fuel
              (iterStep participating A rhs unconditional st)).2.1 = _
          rw [hst, ← Function.iterate_succ_apply]
        · show (pgsLoop participating A rhs unconditional tol fuel
              (iterStep participating A rhs unconditional st)).2.2 + 1 =
            fuel + 1
          rw [hits]

/-- C2: for every call to `solve` with a non-empty participating set,
`solve` returns true if and only if at the end of some sweep within the
iteration cap the enforced RMS residual `sqrt(sum_enforced/p)` is
strictly less than the convergence tolerance; in that case iteration
stops immediately at the first such sweep (the returned `pi` is that
sweep's iterate and the iteration counter advanced exactly that many
times); if the cap is reached without that happening, `solve` returns
false, increments the per-phase failure counter by exactly one, and `pi`
retains the last iterate (no rollback); the failure counter is
incremented if and only if `solve` returns false. -/
theorem solve_convergence_spec (phase : ℤ) (participating : List ℕ)
    (A : ℕ → ℕ → ℝ) (D : ℕ → ℝ) (rhs : ℕ → ℝ) (pi : ℕ → ℝ)
    (unconditional : List UncondRT) (uniContact : List UniContactRT)
    (uniSpeed : List UniSpeedRT) (bounded : List BoundedRT)
    (consLtdFriction : List ConstraintLtdFrictionRT)
    (stateLtdFriction : List StateLtdFrictionRT) (cfg : SolverConfig)
    (hne : participating ≠ []) :
    ((solve phase participating A D rhs pi unconditional uniContact
        uniSpeed bounded consLtdFriction stateLtdFriction cfg).converged
        = true ↔
      ∃ n, n < cfg.m_maxIters ∧
        sweepEnfRMS participating A rhs unconditional
          (solveTraj participating A rhs unconditional pi uniContact
            bounded stateLtdFriction consLtdFriction cfg.m_SOR n) <
          cfg.m_convergenceTol) ∧
    ((solve phase participating A D rhs pi unconditional uniContact
        uniSpeed bounded consLtdFriction stateLtdFriction cfg).converged
        = true →
      ∃ n, n < cfg.m_maxIters ∧
        (∀ k, k < n → ¬ (sweepEnfRMS participating A rhs unconditional
          (solveTraj participating A rhs unconditional pi uniContact
            bounded stateLtdFriction consLtdFriction cfg.m_SOR k) <
          cfg.m_convergenceTol)) ∧
        sweepEnfRMS participating A rhs unconditional
          (solveTraj participating A rhs unconditional pi uniContact
            bounded stateLtdFriction consLtdFriction cfg.m_SOR n) <
          cfg.m_convergenceTol ∧
        (solve phase participating A D rhs pi unconditional uniContact
          uniSpeed bounded consLtdFriction stateLtdFriction cfg).pi =
          (solveTraj participating A rhs unconditional pi uniContact
            bounded stateLtdFriction consLtdFriction cfg.m_SOR
            (n + 1)).sweep.pi ∧
        (solve phase participating A D rhs pi unconditional uniContact
          uniSpeed bounded consLtdFriction stateLtdFriction
          cfg).nItersInc = n + 1) ∧
    ((solve phase participating A D rhs pi unconditional uniContact
        uniSpeed bounded consLtdFriction stateLtdFriction cfg).converged
        = false →
      (solve phase participating A D rhs pi unconditional uniContact
        uniSpeed bounded consLtdFriction stateLtdFriction cfg).pi =
        (solveTraj participating A rhs unconditional pi uniContact
          bounded stateLtdFriction consLtdFriction cfg.m_SOR
          cfg.m_maxIters).sweep.pi ∧
      (solve phase participating A D rhs pi unconditional uniContact
        uniSpeed bounded consLtdFriction stateLtdFriction
        cfg).nItersInc = cfg.m_maxIters ∧
      (solve phase participating A D rhs pi unconditional uniContact
        uniSpeed bounded consLtdFriction stateLtdFriction cfg).nFailInc
        = 1) ∧
    ((solve phase participating A D rhs pi unconditional uniContact
        uniSpeed bounded consLtdFriction stateLtdFriction cfg).nFailInc
        = 1 ↔
      (solve phase participating A D rhs pi unconditional uniContact
        uniSpeed bounded consLtdFriction stateLtdFriction cfg).converged
        = false) := by
  have hp : ¬ (participating.length = 0) := by
    intro h
    exact hne (List.length_eq_zero.mp h)
  have hsolve : solve phase participating A D rhs pi unconditional
      uniContact uniSpeed bounded consLtdFriction stateLtdFriction cfg =
      { converged := (pgsLoop participating A rhs unconditional
          cfg.m_convergenceTol cfg.m_maxIters
          (initIter pi uniContact bounded stateLtdFriction
            consLtdFriction cfg.m_SOR)).1,
        pi := (pgsLoop participating A rhs unconditional
          cfg.m_convergenceTol cfg.m_maxIters
          (initIter pi uniContact bounded stateLtdFriction
            consLtdFriction cfg.m_SOR)).2.1.sweep.pi,
        unconditional := unconditional,
        uniContact := (pgsLoop participating A rhs unconditional
          cfg.m_convergenceTol cfg.m_maxIters
          (initIter pi uniContact bounded stateLtdFriction
            consLtdFriction cfg.m_SOR)).2.1.sweep.uniContact,
        uniSpeed := uniSpeed,
        bounded := (pgsLoop participating A rhs unconditional
          cfg.m_convergenceTol cfg.m_maxIters
          (initIter pi uniContact bounded stateLtdFriction
            consLtdFriction cfg.m_SOR)).2.1.sweep.bounded,
        consLtdFriction := (pgsLoop participating A rhs unconditional
          cfg.m_convergenceTol cfg.m_maxIters
          (initIter pi uniContact bounded stateLtdFriction
            consLtdFriction cfg.m_SOR)).2.1.sweep.consLtdFriction,
        stateLtdFriction := (pgsLoop participating A rhs unconditional
          cfg.m_convergenceTol cfg.m_maxIters
          (initIter pi uniContact bounded stateLtdFriction
            consLtdFriction cfg.m_SOR)).2.1.sweep.stateLtdFriction,
        nSolvesInc := 1,
        nItersInc := (pgsLoop participating A rhs unconditional
          cfg.m_convergenceTol cfg.m_maxIters
          (initIter pi uniContact bounded stateLtdFriction
            consLtdFriction cfg.m_SOR)).2.2,
        nFailInc := if (pgsLoop participating A rhs unconditional
          cfg.m_convergenceTol cfg.m_maxIters
          (initIter pi uniContact bounded stateLtdFriction
            consLtdFriction cfg.m_SOR)).1 then 0 else 1 } := by
    simp only [solve, if_neg hp]
  rw [hsolve]
  simp only [solveTraj]
  refine ⟨?_, ?_, ?_, ?_⟩
  · exact pgsLoop_conv_iff participating A rhs unconditional
      cfg.m_convergenceTol cfg.m_maxIters
      (initIter pi uniContact bounded stateLtdFriction consLtdFriction
        cfg.m_SOR)
  · intro h
    obtain ⟨n, hn, hmin, hlt, hst, hits⟩ :=
      pgsLoop_success_char participating A rhs unconditional
        cfg.m_convergenceTol cfg.m_maxIters
        (initIter pi uniContact bounded stateLtdFriction consLtdFriction
          cfg.m_SOR) h
    exact ⟨n, hn, hmin, hlt, by rw [hst], hits⟩
  · intro h
    obtain ⟨hst, hits⟩ :=
      pgsLoop_failure_char participating A rhs unconditional
        cfg.m_convergenceTol cfg.m_maxIters
        (initIter pi uniContact bounded stateLtdFriction consLtdFriction
          cfg.m_SOR) h
    refine ⟨by rw [hst], hits, ?_⟩
    rw [h]
    simp
  · rcases Bool.eq_false_or_eq_true (pgsLoop participating A rhs
      unconditional cfg.m_convergenceTol cfg.m_maxIters
      (initIter pi uniContact bounded stateLtdFriction consLtdFriction
        cfg.m_SOR)).1 with hb | hb
    · rw [hb]
      simp
    · rw [hb]
      simp

/-- Witness for C2 at a concrete one-equation unconditional system. -/
theorem solve_convergence_spec_witness :
    ([0] : List ℕ) ≠ [] ∧
    ((solve 0 [0] (fun _ _ => (1:ℝ)) (fun _ => 0) (fun _ => 1)
        (fun _ => 0) [⟨[0]⟩] [] [] [] [] [] ⟨1, 1/2, 3⟩).converged = true
      ↔ ∃ n, n < (3:ℕ) ∧
        sweepEnfRMS [0] (fun _ _ => (1:ℝ)) (fun _ => 1) [⟨[0]⟩]
          (solveTraj [0] (fun _ _ => (1:ℝ)) (fun _ => 1) [⟨[0]⟩]
            (fun _ => 0) [] [] [] [] 1 n) < 1/2) :=
  ⟨by simp,
   (solve_convergence_spec 0 [0] (fun _ _ => (1:ℝ)) (fun _ => 0)
     (fun _ => 1) (fun _ => 0) [⟨[0]⟩] [] [] [] [] [] ⟨1, 1/2, 3⟩
     (by simp)).1⟩

/-! ### C3: unilateral speed constraints are never processed -/

/-- C3 failing input: a single participating unilateral-speed constraint
on multiplier 0 with `A = [[1]]`, `rhs = [1]`, `pi0 = [0]`.  The sweep has
no pass for the `uniSpeed` partition, so `pi[0]` is never updated or
projected, the record's status is never written, and the equation's
residual never enters the accumulators: the solver therefore reports
convergence after one sweep with `pi[0] = 0` even though the constraint
equation's residual `rhs[0] - A[0,·]·pi = 1` is completely unsatisfied
(contradicting the solver's own header documentation, which lists the
unilateral-speed partition among the constraint sets it solves, and the
debug assertion, which counts its index in the participating total). -/
theorem solve_uniSpeed_ignored_at_failing_input :
    (solve 0 [0] (fun _ _ => (1:ℝ)) (fun _ => 0) (fun _ => 1)
        (fun _ => 0) [] [] [⟨0, 1, UniCond.UniActive⟩] [] [] []
        ⟨1, 1/2, 1⟩).converged = true ∧
    (solve 0 [0] (fun _ _ => (1:ℝ)) (fun _ => 0) (fun _ => 1)
        (fun _ => 0) [] [] [⟨0, 1, UniCond.UniActive⟩] [] [] []
        ⟨1, 1/2, 1⟩).pi 0 = 0 ∧
    (solve 0 [0] (fun _ _ => (1:ℝ)) (fun _ => 0) (fun _ => 1)
        (fun _ => 0) [] [] [⟨0, 1, UniCond.UniActive⟩] [] [] []
        ⟨1, 1/2, 1⟩).uniSpeed = [⟨0, 1, UniCond.UniActive⟩] ∧
    (fun _ => (1:ℝ)) 0 - doRowSum [0] 0 (fun _ _ => (1:ℝ))
        (solve 0 [0] (fun _ _ => (1:ℝ)) (fun _ => 0) (fun _ => 1)
          (fun _ => 0) [] [] [⟨0, 1, UniCond.UniActive⟩] [] [] []
          ⟨1, 1/2, 1⟩).pi = 1 ∧
    ((1:ℝ) ≠ 0) := by
  have hiter : iterStep [0] (fun _ _ => (1:ℝ)) (fun _ => 1) []
      (initIter (fun _ => 0) [] [] [] [] 1) =
      { sweep := { pi := fun _ => 0, uniContact := [], bounded := [],
                   stateLtdFriction := [], consLtdFriction := [] },
        sor := 1, normRMSenf := some 0, decreasing := false,
        increasing := false } := by
    simp [iterStep, initIter, runSweep, runPass, rateExceedsOne,
      Real.sqrt_zero]
  have h1 : enfBelow (iterStep [0] (fun _ _ => (1:ℝ)) (fun _ => 1) []
      (initIter (fun _ => 0) [] [] [] [] 1)) (1/2) = true := by
    rw [hiter]
    simp [enfBelow]
  have hloop : pgsLoop [0] (fun _ _ => (1:ℝ)) (fun _ => 1) [] (1/2) 1
      (initIter (fun _ => 0) [] [] [] [] 1) =
      (true, iterStep [0] (fun _ _ => (1:ℝ)) (fun _ => 1) []
        (initIter (fun _ => 0) [] [] [] [] 1), 1) :=
    pgsLoop_succ_pos [0] (fun _ _ => (1:ℝ)) (fun _ => 1) [] (1/2) 0
      (initIter (fun _ => 0) [] [] [] [] 1) h1
  have hp : ¬ (([0] : List ℕ).length = 0) := by simp
  have hsolve : solve 0 [0] (fun _ _ => (1:ℝ)) (fun _ => 0) (fun _ => 1)
      (fun _ => 0) [] [] [⟨0, 1, UniCond.UniActive⟩] [] [] []
      ⟨1, 1/2, 1⟩ =
      { converged := true,
        pi := fun _ => 0, unconditional := [], uniContact := [],
        uniSpeed := [⟨0, 1, UniCond.UniActive⟩], bounded := [],
        consLtdFriction := [], stateLtdFriction := [],
        nSolvesInc := 1, nItersInc := 1, nFailInc := 0 } := by
    simp only [solve, if_neg hp]
    rw [hloop, hiter]
    rfl
  rw [hsolve]
  refine ⟨rfl, rfl, rfl, ?_, by norm_num⟩
  simp [doRowSum]

/-! ### C1: the scalar update primitive -/

/-- C1: for every row index `r`, matrix `A`, right-hand side `rhs`,
relaxation factor `sor`, and accumulated row sum `s`, `doUpdate` sets
`pi[r]` to `pi[r] + sor*(rhs[r] - s)/A[r,r]` when `A[r,r] > 0` and leaves
`pi[r]` unchanged when `A[r,r] <= 0`; in both cases it returns the squared
residual `(rhs[r] - s)^2`, and it modifies no entry of `pi` other than
`pi[r]`. -/
theorem doUpdate_scalar_update_spec (row : ℕ) (A : ℕ → ℕ → ℝ)
    (rhs : ℕ → ℝ) (sor s : ℝ) (pi : ℕ → ℝ) :
    (doUpdate row A rhs sor s pi).1 = (rhs row - s) ^ 2 ∧
    (0 < A row row →
      (doUpdate row A rhs sor s pi).2 row =
        pi row + sor * (rhs row - s) / A row row) ∧
    (A row row ≤ 0 → (doUpdate row A rhs sor s pi).2 row = pi row) ∧
    (∀ j, j ≠ row → (doUpdate row A rhs sor s pi).2 j = pi j) := by
  rw [doUpdate_unfold]
  refine ⟨by rw [square, pow_two], ?_, ?_, ?_⟩
  · intro h
    simp only [if_pos h, Function.update_same]
  · intro h
    simp only [if_neg (not_lt.mpr h)]
  · intro j hj
    by_cases h : 0 < A row row
    · simp only [if_pos h]
      exact Function.update_noteq hj _ _
    · simp only [if_neg h]

/-- Witness for C1 at row 0, A = 1, rhs = 1, sor = 1, s = 0, pi = 0. -/
theorem doUpdate_scalar_update_spec_witness :
    (0:ℝ) < 1 ∧ (5:ℕ) ≠ 0 ∧
    ((doUpdate 0 (fun _ _ => (1:ℝ)) (fun _ => 1) 1 0 fun _ => 0).2 0 =
        0 + 1 * ((1:ℝ) - 0) / 1 ∧
      (doUpdate 0 (fun _ _ => (1:ℝ)) (fun _ => 1) 1 0 fun _ => 0).2 5 = 0) :=
  ⟨by norm_num, by norm_num,
   (doUpdate_scalar_update_spec 0 (fun _ _ => (1:ℝ)) (fun _ => 1) 1 0
       fun _ => 0).2.1 (by norm_num),
   (doUpdate_scalar_update_spec 0 (fun _ _ => (1:ℝ)) (fun _ => 1) 1 0
       fun _ => 0).2.2.2 5 (by norm_num)⟩

/-! ### C6: the regularization vector D is never read -/

/-- C6: two calls to `solve` that agree on all inputs except the
diagonal-regularization vector `D` produce identical observable results:
same boolean return, same final `pi`, same status fields in every
constraint record, and same counter increments — the algorithm never
reads `D`. -/
theorem solve_ignores_D (phase : ℤ) (participating : List ℕ)
    (A : ℕ → ℕ → ℝ) (D D2 : ℕ → ℝ) (rhs : ℕ → ℝ) (pi : ℕ → ℝ)
    (unconditional : List UncondRT) (uniContact : List UniContactRT)
    (uniSpeed : List UniSpeedRT) (bounded : List BoundedRT)
    (consLtdFriction : List ConstraintLtdFrictionRT)
    (stateLtdFriction : List StateLtdFrictionRT) (cfg : SolverConfig) :
    solve phase participating A D rhs pi unconditional uniContact uniSpeed
        bounded consLtdFriction stateLtdFriction cfg =
      solve phase participating A D2 rhs pi unconditional uniContact
        uniSpeed bounded consLtdFriction stateLtdFriction cfg := rfl

/-! ### C10: empty participating set -/

/-- C10: for every call to `solve` with an empty participating set,
`solve` returns true immediately with zero sweep iterations performed,
`pi` and all records are left entirely unchanged, and the per-phase
iteration and failure counters are not incremented. -/
theorem solve_empty_participating (phase : ℤ) (participating : List ℕ)
    (A : ℕ → ℕ → ℝ) (D : ℕ → ℝ) (rhs : ℕ → ℝ) (pi : ℕ → ℝ)
    (unconditional : List UncondRT) (uniContact : List UniContactRT)
    (uniSpeed : List UniSpeedRT) (bounded : List BoundedRT)
    (consLtdFriction : List ConstraintLtdFrictionRT)
    (stateLtdFriction : List StateLtdFrictionRT) (cfg : SolverConfig)
    (h : participating = []) :
    (solve phase participating A D rhs pi unconditional uniContact
        uniSpeed bounded consLtdFriction stateLtdFriction cfg) =
      { converged := true, pi := pi, unconditional := unconditional,
        uniContact := uniContact, uniSpeed := uniSpeed, bounded := bounded,
        consLtdFriction := consLtdFriction,
        stateLtdFriction := stateLtdFriction,
        nSolvesInc := 1, nItersInc := 0, nFailInc := 0 } := by
  subst h
  simp [solve]

/-- Witness for C10 at a concrete empty call. -/
theorem solve_empty_participating_witness :
    ([] : List ℕ) = [] ∧
    (solve 0 [] (fun _ _ => (1:ℝ)) (fun _ => 0) (fun _ => 1) (fun _ => 2)
        [] [] [] [] [] [] ⟨1, 1/2, 10⟩) =
      { converged := true, pi := fun _ => 2, unconditional := [],
        uniContact := [], uniSpeed := [], bounded := [],
        consLtdFriction := [], stateLtdFriction := [],
        nSolvesInc := 1, nItersInc := 0, nFailInc := 0 } :=
  ⟨rfl,
   solve_empty_participating 0 [] (fun _ _ => (1:ℝ)) (fun _ => 0)
     (fun _ => 1) (fun _ => 2) [] [] [] [] [] [] ⟨1, 1/2, 10⟩ rfl⟩

end Theorems

end PGS

